import Mathlib

/-!
A shallow embedding of the reachability subsystem implemented in
libredex/ReachableClasses.cpp, together with theorems settling the
specified properties of its data model, marking engine, rule evaluator
and seed ingestion.

Entities (classes, methods, fields) carry a ReachabilityState of four
monotone boolean facts.  Classes live in a Scope (a list, in stable
iteration order); a Program additionally carries the table of known
type descriptors (the DexType universe), which is a superset of the
descriptors of the classes defined in the scope.
-/

namespace Redex

abbrev Name := String

/-- Modelled from the spec: ReachabilityState is declared in
ReachableClasses.h, which is not under src.  §3 of the spec gives the four
independent monotone facts and the derived predicates; §4.1 gives the
setters ref_by_type / ref_by_string / ref_by_seed used throughout
ReachableClasses.cpp. -/
structure RState where
  type_referenced : Bool
  string_referenced_from_code : Bool
  string_referenced_external : Bool
  seed_referenced : Bool
deriving DecidableEq

/-- The state an entity is created with: no fact set. -/
def RState.fresh : RState := ⟨false, false, false, false⟩

def RState.ref_by_type (s : RState) : RState := { s with type_referenced := true }

/-- Modelled from the spec (§4.3): ref_by_string sets
string_referenced_from_code or string_referenced_external depending on
from_code. -/
def RState.ref_by_string (s : RState) (from_code : Bool) : RState :=
  if from_code then { s with string_referenced_from_code := true }
  else { s with string_referenced_external := true }

def RState.ref_by_seed (s : RState) : RState := { s with seed_referenced := true }

/-- Modelled from the spec (§3): can_delete is the negation of the
disjunction of all four facts. -/
def RState.can_delete (s : RState) : Bool :=
  !(s.type_referenced || s.string_referenced_from_code ||
    s.string_referenced_external || s.seed_referenced)

/-- Modelled from the spec (§3): can_rename is blocked only by external
string references and seeds. -/
def RState.can_rename (s : RState) : Bool :=
  !(s.string_referenced_external || s.seed_referenced)

/-- Modelled from the spec (§3): is_seed reads the seed fact. -/
def RState.is_seed (s : RState) : Bool := s.seed_referenced

structure DexField where
  name : Name
  rstate : RState
deriving DecidableEq

structure DexMethod where
  name : Name
  rstate : RState
deriving DecidableEq

/-- A class: descriptor name (internal form, e.g. "LFoo;"), optional
superclass descriptor (none models a null super, i.e. java.lang.Object),
direct/virtual methods, static/instance fields, and its own state. -/
structure DexClass where
  name : Name
  superName : Option Name
  dmethods : List DexMethod
  vmethods : List DexMethod
  sfields : List DexField
  ifields : List DexField
  rstate : RState
deriving DecidableEq

abbrev Scope := List DexClass

/-- A program: the table of descriptors known to DexType::get_type
(types referenced anywhere, defined or not) plus the scope of defined
classes. -/
structure Program where
  types : List Name
  scope : Scope
deriving DecidableEq

/-- Replace one list element in place; out-of-range indices leave the
list unchanged. -/
def modifyIdx (f : α → α) : Nat → List α → List α
  | _, [] => []
  | 0, a :: l => f a :: l
  | n + 1, a :: l => a :: modifyIdx f n l

/-- Index of the class a descriptor resolves to (first match in scope
order); none models a class outside the analyzed program. -/
def findClassIdx (scope : Scope) (t : Name) : Option Nat :=
  match scope with
  | [] => none
  | c :: rest =>
    if c.name == t then some 0 else (findClassIdx rest t).map (fun n => n + 1)

/-- type_class_internal: descriptor to defined class, or none. -/
def type_class_internal (scope : Scope) (t : Name) : Option DexClass :=
  match scope with
  | [] => none
  | c :: rest => if c.name == t then some c else type_class_internal rest t

/-- Resolve a descriptor and rewrite the resolved class in place; a
descriptor with no matching class is a silent no-op (the null checks at
ReachableClasses.cpp:50, 89, 122, 127). -/
def markClsAt (scope : Scope) (t : Name) (f : DexClass → DexClass) : Scope :=
  match findClassIdx scope t with
  | none => scope
  | some i => modifyIdx f i scope

/-- ReachableClasses.cpp:49-67, mark_reachable_directly: set ref_by_type
on the class and on every dmethod, vmethod, sfield and ifield it
declares. -/
def mark_reachable_directly (dclass : DexClass) : DexClass :=
  { dclass with
    rstate := dclass.rstate.ref_by_type
    dmethods := dclass.dmethods.map (fun m => { m with rstate := m.rstate.ref_by_type })
    vmethods := dclass.vmethods.map (fun m => { m with rstate := m.rstate.ref_by_type })
    sfields := dclass.sfields.map (fun f => { f with rstate := f.rstate.ref_by_type })
    ifields := dclass.ifields.map (fun f => { f with rstate := f.rstate.ref_by_type }) }

/-- ReachableClasses.cpp:88-106, mark_reachable_by_classname: set
ref_by_string(from_code) on the class and on every member it declares. -/
def mark_reachable_by_classname (from_code : Bool) (dclass : DexClass) : DexClass :=
  { dclass with
    rstate := dclass.rstate.ref_by_string from_code
    dmethods := dclass.dmethods.map (fun m => { m with rstate := m.rstate.ref_by_string from_code })
    vmethods := dclass.vmethods.map (fun m => { m with rstate := m.rstate.ref_by_string from_code })
    sfields := dclass.sfields.map (fun f => { f with rstate := f.rstate.ref_by_string from_code })
    ifields := dclass.ifields.map (fun f => { f with rstate := f.rstate.ref_by_string from_code }) }

/-- ReachableClasses.cpp:121-124, mark_reachable_by_seed on a class:
set ref_by_seed on the class only, no member sweep. -/
def seedClass (dclass : DexClass) : DexClass :=
  { dclass with rstate := dclass.rstate.ref_by_seed }

/-- mark_direct at the program level: resolve the descriptor, then run
mark_reachable_directly on the resolved class (spec §4.3). -/
def mark_direct (scope : Scope) (t : Name) : Scope :=
  markClsAt scope t mark_reachable_directly

/-- mark_by_name at the program level (spec §4.3), the composition of
DexType::get_type, type_class_internal and mark_reachable_by_classname
done by the overloads at ReachableClasses.cpp:108-119. -/
def mark_by_name (scope : Scope) (t : Name) (from_code : Bool) : Scope :=
  markClsAt scope t (mark_reachable_by_classname from_code)

/-- ReachableClasses.cpp:121-129, mark_reachable_by_seed on a type:
resolve to a class (silent no-op for unknown or undefined types) and
set the seed fact on the class alone. -/
def mark_reachable_by_seed (scope : Scope) (t : Name) : Scope :=
  markClsAt scope t seedClass

theorem modifyIdx_getElem (f : α → α) (i j : Nat) (l : List α) :
    (modifyIdx f i l)[j]? = if j = i then (l[j]?).map f else l[j]? := by
  induction l generalizing i j with
  | nil =>
    cases i <;> cases j <;> simp [modifyIdx]
  | cons a l ih =>
    cases i with
    | zero =>
      cases j with
      | zero => simp [modifyIdx]
      | succ j => simp [modifyIdx]
    | succ i =>
      cases j with
      | zero => simp [modifyIdx]
      | succ j => simpa [modifyIdx] using ih i j

/-- Claim C6: if mark_direct resolves descriptor t to the class at index
i, then afterwards type_referenced holds for that class and for every
method and field it declares, while every other position of the scope is
unchanged. -/
theorem mark_direct_cascade_and_frame (scope : Scope) (t : Name) (i : Nat)
    (h : findClassIdx scope t = some i) :
    (∀ j, j ≠ i → (mark_direct scope t)[j]? = scope[j]?) ∧
    (∀ c, (mark_direct scope t)[i]? = some c →
      c.rstate.type_referenced = true ∧
      (∀ m ∈ c.dmethods, m.rstate.type_referenced = true) ∧
      (∀ m ∈ c.vmethods, m.rstate.type_referenced = true) ∧
      (∀ f ∈ c.sfields, f.rstate.type_referenced = true) ∧
      (∀ f ∈ c.ifields, f.rstate.type_referenced = true)) := by
  unfold mark_direct markClsAt
  rw [h]
  constructor
  · intro j hj
    rw [modifyIdx_getElem, if_neg hj]
  · intro c hc
    rw [modifyIdx_getElem, if_pos rfl] at hc
    rcases Option.map_eq_some'.mp hc with ⟨c0, _, rfl⟩
    refine ⟨rfl, ?_, ?_, ?_, ?_⟩ <;>
      · intro x hx
        simp only [mark_reachable_directly, List.mem_map] at hx
        rcases hx with ⟨x0, _, rfl⟩
        rfl

/-- Claim C7: if the seed marking resolves descriptor t to the class at
index i, then afterwards that class has is_seed true and can_delete,
can_rename false, while its other three facts, its members, and every
other position of the scope are unchanged. -/
theorem mark_by_seed_exclusive (scope : Scope) (t : Name) (i : Nat)
    (h : findClassIdx scope t = some i) :
    (∀ j, j ≠ i → (mark_reachable_by_seed scope t)[j]? = scope[j]?) ∧
    (∀ c, scope[i]? = some c →
      ∃ c2, (mark_reachable_by_seed scope t)[i]? = some c2 ∧
        c2.rstate.is_seed = true ∧
        c2.rstate.can_delete = false ∧
        c2.rstate.can_rename = false ∧
        c2.rstate.type_referenced = c.rstate.type_referenced ∧
        c2.rstate.string_referenced_from_code = c.rstate.string_referenced_from_code ∧
        c2.rstate.string_referenced_external = c.rstate.string_referenced_external ∧
        c2.name = c.name ∧ c2.superName = c.superName ∧
        c2.dmethods = c.dmethods ∧ c2.vmethods = c.vmethods ∧
        c2.sfields = c.sfields ∧ c2.ifields = c.ifields) := by
  unfold mark_reachable_by_seed markClsAt
  rw [h]
  constructor
  · intro j hj
    rw [modifyIdx_getElem, if_neg hj]
  · intro c hc
    refine ⟨seedClass c, ?_, ?_⟩
    · rw [modifyIdx_getElem, if_pos rfl, hc, Option.map_some']
    · refine ⟨rfl, ?_, ?_, rfl, rfl, rfl, rfl, rfl, rfl, rfl, rfl, rfl⟩
      · simp [seedClass, RState.ref_by_seed, RState.can_delete]
      · simp [seedClass, RState.ref_by_seed, RState.can_rename]

/-- Which member list of a class a non-cascading mark addresses. -/
inductive MemberKind
  | dmeth
  | vmeth
  | sfield
  | ifield
deriving DecidableEq

/-- One call into the marking engine: the three cascading operations of
ReachableClasses.cpp (mark_reachable_directly, mark_reachable_by_classname,
mark_reachable_by_seed) and the non-cascading variants
(mark_only_reachable_directly on a class or on a single member, and the
per-method ref_by_string used by keep_methods). -/
inductive MarkOp
  | direct (t : Name)
  | byName (t : Name) (from_code : Bool)
  | bySeed (t : Name)
  | onlyDirectCls (t : Name)
  | onlyDirectMember (t : Name) (k : MemberKind) (i : Nat)
  | onlyByNameMember (t : Name) (k : MemberKind) (i : Nat) (from_code : Bool)
deriving DecidableEq

/-- Apply a state update to the i-th member of the addressed list. -/
def memberMark (k : MemberKind) (i : Nat) (g : RState → RState) (c : DexClass) : DexClass :=
  match k with
  | .dmeth => { c with dmethods := modifyIdx (fun m => { m with rstate := g m.rstate }) i c.dmethods }
  | .vmeth => { c with vmethods := modifyIdx (fun m => { m with rstate := g m.rstate }) i c.vmethods }
  | .sfield => { c with sfields := modifyIdx (fun f => { f with rstate := g f.rstate }) i c.sfields }
  | .ifield => { c with ifields := modifyIdx (fun f => { f with rstate := g f.rstate }) i c.ifields }

def applyOp (op : MarkOp) (scope : Scope) : Scope :=
  match op with
  | .direct t => mark_direct scope t
  | .byName t b => mark_by_name scope t b
  | .bySeed t => mark_reachable_by_seed scope t
  | .onlyDirectCls t => markClsAt scope t (fun c => { c with rstate := c.rstate.ref_by_type })
  | .onlyDirectMember t k i => markClsAt scope t (memberMark k i RState.ref_by_type)
  | .onlyByNameMember t k i b => markClsAt scope t (memberMark k i (fun s => s.ref_by_string b))

def applyOps (ops : List MarkOp) (scope : Scope) : Scope :=
  ops.foldl (fun s op => applyOp op s) scope

/-- How one reachability state may evolve under marking: every fact only
ever goes from false to true, and consequently the derived can_delete and
can_rename verdicts only ever go from true to false. -/
def RState.evolves (a b : RState) : Prop :=
  a.type_referenced ≤ b.type_referenced ∧
  a.string_referenced_from_code ≤ b.string_referenced_from_code ∧
  a.string_referenced_external ≤ b.string_referenced_external ∧
  a.seed_referenced ≤ b.seed_referenced ∧
  b.can_delete ≤ a.can_delete ∧
  b.can_rename ≤ a.can_rename

theorem bool_derived_antitone : ∀ t1 f1 e1 s1 t2 f2 e2 s2 : Bool,
    t1 ≤ t2 → f1 ≤ f2 → e1 ≤ e2 → s1 ≤ s2 →
    ((!(t2 || f2 || e2 || s2)) ≤ (!(t1 || f1 || e1 || s1)) ∧
      (!(e2 || s2)) ≤ (!(e1 || s1))) := by decide

theorem RState.evolves_of_flags (a b : RState)
    (h1 : a.type_referenced ≤ b.type_referenced)
    (h2 : a.string_referenced_from_code ≤ b.string_referenced_from_code)
    (h3 : a.string_referenced_external ≤ b.string_referenced_external)
    (h4 : a.seed_referenced ≤ b.seed_referenced) : a.evolves b :=
  ⟨h1, h2, h3, h4,
    (bool_derived_antitone _ _ _ _ _ _ _ _ h1 h2 h3 h4).1,
    (bool_derived_antitone _ _ _ _ _ _ _ _ h1 h2 h3 h4).2⟩

theorem RState.evolves_refl (a : RState) : a.evolves a :=
  ⟨le_refl _, le_refl _, le_refl _, le_refl _, le_refl _, le_refl _⟩

theorem RState.evolves_trans {a b c : RState} (h1 : a.evolves b) (h2 : b.evolves c) :
    a.evolves c :=
  ⟨le_trans h1.1 h2.1, le_trans h1.2.1 h2.2.1, le_trans h1.2.2.1 h2.2.2.1,
    le_trans h1.2.2.2.1 h2.2.2.2.1, le_trans h2.2.2.2.2.1 h1.2.2.2.2.1,
    le_trans h2.2.2.2.2.2 h1.2.2.2.2.2⟩

theorem evolves_ref_by_type (s : RState) : s.evolves s.ref_by_type :=
  RState.evolves_of_flags _ _ (Bool.le_true _) (le_refl _) (le_refl _) (le_refl _)

theorem evolves_ref_by_string (s : RState) (b : Bool) : s.evolves (s.ref_by_string b) := by
  cases b
  · exact RState.evolves_of_flags _ _ (le_refl _) (le_refl _) (Bool.le_true _) (le_refl _)
  · exact RState.evolves_of_flags _ _ (le_refl _) (Bool.le_true _) (le_refl _) (le_refl _)

theorem evolves_ref_by_seed (s : RState) : s.evolves s.ref_by_seed :=
  RState.evolves_of_flags _ _ (le_refl _) (le_refl _) (le_refl _) (Bool.le_true _)

def methodEvolves (m m2 : DexMethod) : Prop := m.rstate.evolves m2.rstate

def fieldEvolves (f f2 : DexField) : Prop := f.rstate.evolves f2.rstate

def DexClass.evolves (c c2 : DexClass) : Prop :=
  c.rstate.evolves c2.rstate ∧
  List.Forall₂ methodEvolves c.dmethods c2.dmethods ∧
  List.Forall₂ methodEvolves c.vmethods c2.vmethods ∧
  List.Forall₂ fieldEvolves c.sfields c2.sfields ∧
  List.Forall₂ fieldEvolves c.ifields c2.ifields

/-- Every class of the first scope evolves, pointwise in order, into the
corresponding class of the second. -/
def ScopeEvolves (s s2 : Scope) : Prop := List.Forall₂ DexClass.evolves s s2

theorem forall2_self_map (R : α → α → Prop) (f : α → α) (h : ∀ a, R a (f a)) :
    ∀ l : List α, List.Forall₂ R l (l.map f)
  | [] => List.Forall₂.nil
  | a :: l => List.Forall₂.cons (h a) (forall2_self_map R f h l)

theorem forall2_self (R : α → α → Prop) (hrefl : ∀ a, R a a) :
    ∀ l : List α, List.Forall₂ R l l
  | [] => List.Forall₂.nil
  | a :: l => List.Forall₂.cons (hrefl a) (forall2_self R hrefl l)

theorem forall2_self_modifyIdx (R : α → α → Prop) (f : α → α)
    (hrefl : ∀ a, R a a) (h : ∀ a, R a (f a)) :
    ∀ (i : Nat) (l : List α), List.Forall₂ R l (modifyIdx f i l) := by
  intro i l
  induction l generalizing i with
  | nil => cases i <;> exact List.Forall₂.nil
  | cons a l ih =>
    cases i with
    | zero => exact List.Forall₂.cons (h a) (forall2_self R hrefl l)
    | succ i => exact List.Forall₂.cons (hrefl a) (ih i)

theorem forall2_trans (R : α → α → Prop) (ht : ∀ a b c, R a b → R b c → R a c)
    {l1 l2 l3 : List α} (h12 : List.Forall₂ R l1 l2) (h23 : List.Forall₂ R l2 l3) :
    List.Forall₂ R l1 l3 := by
  induction h12 generalizing l3 with
  | nil => cases h23; exact List.Forall₂.nil
  | cons hab h ih =>
    cases h23 with
    | cons hbc h2 => exact List.Forall₂.cons (ht _ _ _ hab hbc) (ih h2)

theorem clsEvolves_refl (c : DexClass) : c.evolves c :=
  ⟨RState.evolves_refl _,
    forall2_self methodEvolves (fun m => RState.evolves_refl m.rstate) _,
    forall2_self methodEvolves (fun m => RState.evolves_refl m.rstate) _,
    forall2_self fieldEvolves (fun f => RState.evolves_refl f.rstate) _,
    forall2_self fieldEvolves (fun f => RState.evolves_refl f.rstate) _⟩

theorem clsEvolves_trans {a b c : DexClass}
    (h1 : a.evolves b) (h2 : b.evolves c) : a.evolves c :=
  ⟨RState.evolves_trans h1.1 h2.1,
    forall2_trans methodEvolves (fun _ _ _ u v => RState.evolves_trans u v) h1.2.1 h2.2.1,
    forall2_trans methodEvolves (fun _ _ _ u v => RState.evolves_trans u v) h1.2.2.1 h2.2.2.1,
    forall2_trans fieldEvolves (fun _ _ _ u v => RState.evolves_trans u v) h1.2.2.2.1 h2.2.2.2.1,
    forall2_trans fieldEvolves (fun _ _ _ u v => RState.evolves_trans u v) h1.2.2.2.2 h2.2.2.2.2⟩

theorem scopeEvolves_refl (s : Scope) : ScopeEvolves s s :=
  forall2_self DexClass.evolves clsEvolves_refl s

theorem scopeEvolves_trans {s1 s2 s3 : Scope}
    (h1 : ScopeEvolves s1 s2) (h2 : ScopeEvolves s2 s3) : ScopeEvolves s1 s3 :=
  forall2_trans DexClass.evolves (fun _ _ _ u v => clsEvolves_trans u v) h1 h2

theorem evolves_cls_update (g : RState → RState) (hg : ∀ s : RState, s.evolves (g s))
    (c : DexClass) : c.evolves { c with rstate := g c.rstate } :=
  ⟨hg c.rstate,
    forall2_self methodEvolves (fun m => RState.evolves_refl m.rstate) _,
    forall2_self methodEvolves (fun m => RState.evolves_refl m.rstate) _,
    forall2_self fieldEvolves (fun f => RState.evolves_refl f.rstate) _,
    forall2_self fieldEvolves (fun f => RState.evolves_refl f.rstate) _⟩

theorem evolves_cascade (g : RState → RState) (hg : ∀ s : RState, s.evolves (g s))
    (c : DexClass) :
    c.evolves
      { c with
        rstate := g c.rstate
        dmethods := c.dmethods.map (fun m => { m with rstate := g m.rstate })
        vmethods := c.vmethods.map (fun m => { m with rstate := g m.rstate })
        sfields := c.sfields.map (fun f => { f with rstate := g f.rstate })
        ifields := c.ifields.map (fun f => { f with rstate := g f.rstate }) } :=
  ⟨hg c.rstate,
    forall2_self_map methodEvolves (fun m => { m with rstate := g m.rstate })
      (fun m => hg m.rstate) _,
    forall2_self_map methodEvolves (fun m => { m with rstate := g m.rstate })
      (fun m => hg m.rstate) _,
    forall2_self_map fieldEvolves (fun f => { f with rstate := g f.rstate })
      (fun f => hg f.rstate) _,
    forall2_self_map fieldEvolves (fun f => { f with rstate := g f.rstate })
      (fun f => hg f.rstate) _⟩

theorem evolves_memberMark (k : MemberKind) (i : Nat) (g : RState → RState)
    (hg : ∀ s : RState, s.evolves (g s)) (c : DexClass) : c.evolves (memberMark k i g c) := by
  cases k
  · exact ⟨RState.evolves_refl _,
      forall2_self_modifyIdx methodEvolves (fun m => { m with rstate := g m.rstate })
        (fun m => RState.evolves_refl m.rstate) (fun m => hg m.rstate) i _,
      forall2_self methodEvolves (fun m => RState.evolves_refl m.rstate) _,
      forall2_self fieldEvolves (fun f => RState.evolves_refl f.rstate) _,
      forall2_self fieldEvolves (fun f => RState.evolves_refl f.rstate) _⟩
  · exact ⟨RState.evolves_refl _,
      forall2_self methodEvolves (fun m => RState.evolves_refl m.rstate) _,
      forall2_self_modifyIdx methodEvolves (fun m => { m with rstate := g m.rstate })
        (fun m => RState.evolves_refl m.rstate) (fun m => hg m.rstate) i _,
      forall2_self fieldEvolves (fun f => RState.evolves_refl f.rstate) _,
      forall2_self fieldEvolves (fun f => RState.evolves_refl f.rstate) _⟩
  · exact ⟨RState.evolves_refl _,
      forall2_self methodEvolves (fun m => RState.evolves_refl m.rstate) _,
      forall2_self methodEvolves (fun m => RState.evolves_refl m.rstate) _,
      forall2_self_modifyIdx fieldEvolves (fun f => { f with rstate := g f.rstate })
        (fun f => RState.evolves_refl f.rstate) (fun f => hg f.rstate) i _,
      forall2_self fieldEvolves (fun f => RState.evolves_refl f.rstate) _⟩
  · exact ⟨RState.evolves_refl _,
      forall2_self methodEvolves (fun m => RState.evolves_refl m.rstate) _,
      forall2_self methodEvolves (fun m => RState.evolves_refl m.rstate) _,
      forall2_self fieldEvolves (fun f => RState.evolves_refl f.rstate) _,
      forall2_self_modifyIdx fieldEvolves (fun f => { f with rstate := g f.rstate })
        (fun f => RState.evolves_refl f.rstate) (fun f => hg f.rstate) i _⟩

theorem scopeEvolves_markClsAt (scope : Scope) (t : Name) (f : DexClass → DexClass)
    (hf : ∀ c : DexClass, c.evolves (f c)) : ScopeEvolves scope (markClsAt scope t f) := by
  unfold markClsAt
  cases findClassIdx scope t with
  | none => exact scopeEvolves_refl scope
  | some i => exact forall2_self_modifyIdx DexClass.evolves f clsEvolves_refl hf i scope

theorem scopeEvolves_applyOp (op : MarkOp) (scope : Scope) :
    ScopeEvolves scope (applyOp op scope) := by
  cases op with
  | direct t =>
    exact scopeEvolves_markClsAt scope t _ (evolves_cascade _ evolves_ref_by_type)
  | byName t b =>
    exact scopeEvolves_markClsAt scope t _
      (evolves_cascade _ (fun s => evolves_ref_by_string s b))
  | bySeed t =>
    exact scopeEvolves_markClsAt scope t _ (evolves_cls_update _ evolves_ref_by_seed)
  | onlyDirectCls t =>
    exact scopeEvolves_markClsAt scope t _ (evolves_cls_update _ evolves_ref_by_type)
  | onlyDirectMember t k i =>
    exact scopeEvolves_markClsAt scope t _ (evolves_memberMark k i _ evolves_ref_by_type)
  | onlyByNameMember t k i b =>
    exact scopeEvolves_markClsAt scope t _
      (evolves_memberMark k i _ (fun s => evolves_ref_by_string s b))

/-- Claim C4: over any scope and any sequence of marking operations
(the cascading mark_direct / mark_by_name / mark_by_seed and the
non-cascading variants), every entity's four reachability facts only
ever pass from unset to set, and its derived can_delete and can_rename
verdicts only ever pass from true to false. -/
theorem marking_ops_monotone (scope : Scope) (ops : List MarkOp) :
    ScopeEvolves scope (applyOps ops scope) := by
  induction ops generalizing scope with
  | nil => exact scopeEvolves_refl scope
  | cons op ops ih =>
    exact scopeEvolves_trans (scopeEvolves_applyOp op scope) (ih (applyOp op scope))

/-- ReachableClasses.cpp:203-217, keep_methods: for every class in scope,
a dmethod or vmethod whose name is in the configured set gets
ref_by_string(false) on the method alone. -/
def keep_methods (scope : Scope) (ms : List String) : Scope :=
  scope.map (fun cls =>
    { cls with
      dmethods := cls.dmethods.map (fun m =>
        if ms.contains m.name then { m with rstate := m.rstate.ref_by_string false } else m)
      vmethods := cls.vmethods.map (fun m =>
        if ms.contains m.name then { m with rstate := m.rstate.ref_by_string false } else m) })

/-- After keep_methods, a method's string_referenced_external fact is its
old value or-ed with exact membership of its name in the configured list,
and its name and other three facts are untouched. -/
def keptMethodRel (ms : List String) (m m2 : DexMethod) : Prop :=
  m2.name = m.name ∧
  m2.rstate.string_referenced_external =
    (m.rstate.string_referenced_external || ms.contains m.name) ∧
  m2.rstate.type_referenced = m.rstate.type_referenced ∧
  m2.rstate.string_referenced_from_code = m.rstate.string_referenced_from_code ∧
  m2.rstate.seed_referenced = m.rstate.seed_referenced

/-- After keep_methods, a class keeps its own state and fields, and its
methods evolve by keptMethodRel. -/
def keptClassRel (ms : List String) (c c2 : DexClass) : Prop :=
  c2.name = c.name ∧ c2.superName = c.superName ∧ c2.rstate = c.rstate ∧
  c2.sfields = c.sfields ∧ c2.ifields = c.ifields ∧
  List.Forall₂ (keptMethodRel ms) c.dmethods c2.dmethods ∧
  List.Forall₂ (keptMethodRel ms) c.vmethods c2.vmethods

theorem keptMethodRel_of (ms : List String) (m : DexMethod) :
    keptMethodRel ms m
      (if ms.contains m.name then { m with rstate := m.rstate.ref_by_string false } else m) := by
  unfold keptMethodRel
  by_cases h : ms.contains m.name = true
  · rw [if_pos h]
    refine ⟨rfl, ?_, rfl, rfl, rfl⟩
    rw [h]
    exact (Bool.or_true _).symm
  · rw [if_neg h]
    refine ⟨rfl, ?_, rfl, rfl, rfl⟩
    rw [Bool.not_eq_true] at h
    rw [h]
    exact (Bool.or_false _).symm

/-- Claim C8: keep_methods marks, by-name with from_code = false and
without cascading, exactly the methods whose unqualified name is literally
equal to one of the configured names, and changes nothing else. -/
theorem keep_methods_exact_match (scope : Scope) (ms : List String) :
    List.Forall₂ (keptClassRel ms) scope (keep_methods scope ms) := by
  refine forall2_self_map (keptClassRel ms) _ (fun c => ?_) scope
  exact ⟨rfl, rfl, rfl, rfl, rfl,
    forall2_self_map (keptMethodRel ms) _ (fun m => keptMethodRel_of ms m) _,
    forall2_self_map (keptMethodRel ms) _ (fun m => keptMethodRel_of ms m) _⟩

/-- std::string::find(char) != npos, done on the underlying characters. -/
def strContains (s : String) (c : Char) : Bool := s.data.contains c

/-- std::replace of the package separator by the descriptor separator. -/
def translateDots (s : String) : String :=
  String.mk (s.data.map (fun ch => if ch == '.' then '/' else ch))

/-- ReachableClasses.cpp:27-38, get_dextype_from_dotname: wrap the dotted
name as L...; then replace dots by slashes, and resolve it against the
table of known type descriptors (DexType::get_type yields null exactly for
unknown descriptors). -/
def get_dextype_from_dotname (types : List Name) (dotname : String) : Option Name :=
  let buf := translateDots ("L" ++ dotname ++ ";")
  if types.contains buf then some buf else none

/-- The loop body of init_seed_classes (ReachableClasses.cpp:447-461):
skip lines holding a member qualifier or nested-class marker, resolve the
rest, and on success mark by seed and increment the count. -/
def seedStep (acc : Nat × Program) (line : String) : Nat × Program :=
  if strContains line ':' || strContains line '$' then acc
  else
    match get_dextype_from_dotname acc.2.types line with
    | none => acc
    | some t => (acc.1 + 1, { acc.2 with scope := mark_reachable_by_seed acc.2.scope t })

/-- ReachableClasses.cpp:436-468, init_seed_classes: none models a missing
or unreadable seeds file (the early return 0), some lines the getline
loop. -/
def init_seed_classes (prog : Program) (seeds_file : Option (List String)) : Nat × Program :=
  match seeds_file with
  | none => (0, prog)
  | some lines => lines.foldl seedStep (0, prog)

/-- Number of entities (classes and members) whose seed fact is set. -/
def seededCount (s : Scope) : Nat :=
  (s.map (fun c =>
    c.rstate.seed_referenced.toNat +
    (c.dmethods.filter (fun m => m.rstate.seed_referenced)).length +
    (c.vmethods.filter (fun m => m.rstate.seed_referenced)).length +
    (c.sfields.filter (fun f => f.rstate.seed_referenced)).length +
    (c.ifields.filter (fun f => f.rstate.seed_referenced)).length)).sum

theorem seeds_foldl_filter :
    ∀ (lines : List String) (acc : Nat × Program),
      lines.foldl seedStep acc =
        (lines.filter (fun l => !(strContains l ':' || strContains l '$'))).foldl seedStep acc := by
  intro lines
  induction lines with
  | nil => intro acc; rfl
  | cons l ls ih =>
    intro acc
    by_cases h : (strContains l ':' || strContains l '$') = true
    · have hstep : seedStep acc l = acc := by simp [seedStep, h]
      have hneg : ¬((!(strContains l ':' || strContains l '$')) = true) := by
        rw [h]; decide
      rw [List.foldl_cons, hstep,
        @List.filter_cons_of_neg String (fun s => !(strContains s ':' || strContains s '$'))
          l ls hneg, ih acc]
    · simp only [Bool.not_eq_true] at h
      have hpos : (!(strContains l ':' || strContains l '$')) = true := by
        rw [h]; decide
      rw [List.foldl_cons,
        @List.filter_cons_of_pos String (fun s => !(strContains s ':' || strContains s '$'))
          l ls hpos, List.foldl_cons, ih (seedStep acc l)]

/-- Claim C9: a missing or unreadable seed resource yields count 0 and an
unchanged program, and lines containing a member-qualifier token or a
nested-class marker contribute neither a mark nor a count: the run is
identical to the run on the input with those lines removed. -/
theorem init_seed_classes_missing_and_malformed (prog : Program) (lines : List String) :
    init_seed_classes prog none = (0, prog) ∧
    init_seed_classes prog (some lines) =
      init_seed_classes prog
        (some (lines.filter (fun l => !(strContains l ':' || strContains l '$')))) :=
  ⟨rfl, seeds_foldl_filter lines (0, prog)⟩

/-- A line is counted iff it is free of qualifier and nested-class
markers and resolves to a known type descriptor. -/
def acceptedResolvable (types : List Name) (l : String) : Bool :=
  !(strContains l ':' || strContains l '$') && (get_dextype_from_dotname types l).isSome

theorem seedStep_types (acc : Nat × Program) (l : String) :
    (seedStep acc l).2.types = acc.2.types := by
  unfold seedStep
  by_cases h : (strContains l ':' || strContains l '$') = true
  · rw [if_pos h]
  · rw [if_neg h]
    cases get_dextype_from_dotname acc.2.types l with
    | none => rfl
    | some t => rfl

theorem seeds_foldl_count :
    ∀ (lines : List String) (acc : Nat × Program),
      (lines.foldl seedStep acc).1 =
        acc.1 + (lines.filter (acceptedResolvable acc.2.types)).length := by
  intro lines
  induction lines with
  | nil => intro acc; simp
  | cons l ls ih =>
    intro acc
    by_cases h : (strContains l ':' || strContains l '$') = true
    · have hstep : seedStep acc l = acc := by simp [seedStep, h]
      have hneg : ¬(acceptedResolvable acc.2.types l = true) := by
        simp [acceptedResolvable, h]
      rw [List.foldl_cons, hstep, ih acc,
        @List.filter_cons_of_neg String (acceptedResolvable acc.2.types) l ls hneg]
    · simp only [Bool.not_eq_true] at h
      cases hg : get_dextype_from_dotname acc.2.types l with
      | none =>
        have hstep : seedStep acc l = acc := by simp [seedStep, h, hg]
        have hneg : ¬(acceptedResolvable acc.2.types l = true) := by
          simp [acceptedResolvable, h, hg]
        rw [List.foldl_cons, hstep, ih acc,
          @List.filter_cons_of_neg String (acceptedResolvable acc.2.types) l ls hneg]
      | some t =>
        have hstep : seedStep acc l =
            (acc.1 + 1, { acc.2 with scope := mark_reachable_by_seed acc.2.scope t }) := by
          simp [seedStep, h, hg]
        have hpos : acceptedResolvable acc.2.types l = true := by
          simp [acceptedResolvable, h, hg]
        rw [List.foldl_cons, hstep, ih,
          @List.filter_cons_of_pos String (acceptedResolvable acc.2.types) l ls hpos,
          List.length_cons]
        show acc.1 + 1 + (ls.filter (acceptedResolvable acc.2.types)).length =
          acc.1 + ((ls.filter (acceptedResolvable acc.2.types)).length + 1)
        omega

/-- The one-class program of the spec's end-to-end seeds example. -/
def exSeedCls : DexClass := ⟨"Lcom/example/Keep;", none, [], [], [], [], RState.fresh⟩

def exSeedProg : Program := ⟨["Lcom/example/Keep;"], [exSeedCls]⟩

def exSeedLines : List String := ["com.example.Keep", "com.example.Bad:member"]

def dupSeedLines : List String := ["com.example.Keep", "com.example.Keep"]

/-- Claim C3 (amended): init_seed_classes returns the number of accepted
lines that resolve to a known type descriptor — one count per line, not
per distinct marked entity — and on the end-to-end example input it
returns 1 while exactly one entity carries the seed fact. -/
theorem init_seed_classes_count_characterization (prog : Program) (lines : List String) :
    (init_seed_classes prog (some lines)).1 =
      (lines.filter (acceptedResolvable prog.types)).length ∧
    (init_seed_classes exSeedProg (some exSeedLines)).1 = 1 ∧
    seededCount (init_seed_classes exSeedProg (some exSeedLines)).2.scope = 1 := by
  refine ⟨?_, by decide, by decide⟩
  simpa [init_seed_classes] using seeds_foldl_count lines (0, prog)

/-- Counterexample to claim C3 as stated: a seed file listing the same
resolvable class twice returns count 2 while only one entity has been
marked, so the returned count is not the number of marked entities. -/
theorem init_seed_classes_count_counterexample :
    (init_seed_classes exSeedProg (some dupSeedLines)).1 = 2 ∧
    seededCount (init_seed_classes exSeedProg (some dupSeedLines)).2.scope = 1 ∧
    (init_seed_classes exSeedProg (some dupSeedLines)).1 ≠
      seededCount (init_seed_classes exSeedProg (some dupSeedLines)).2.scope := by
  decide

/-- std::string::find of a pattern followed by substr past the match:
the suffix of the subject after the first occurrence of the pattern, or
none when the pattern does not occur. -/
def remAfter : List Char → List Char → Option (List Char)
  | pat, [] => if pat.isEmpty then some [] else none
  | pat, c :: s =>
    if pat.isPrefixOf (c :: s) then some (List.drop pat.length (c :: s))
    else remAfter pat s

/-- ReachableClasses.cpp:181-201, the body of keep_class_members for one
class: scan the configured rules in order; the first rule in which the
class descriptor occurs as a substring is selected and the scan stops
(the break at line 197); every static field whose name occurs in the
rule remainder past that occurrence is marked non-cascadingly, and the
class itself is marked non-cascadingly once any field matched. -/
def keepClassMembersCls (keep_class_mems : List String) (cls : DexClass) : DexClass :=
  match keep_class_mems.findSome? (fun class_mem => remAfter cls.name.data class_mem.data) with
  | none => cls
  | some rem_str =>
    { cls with
      sfields := cls.sfields.map (fun f =>
        if (remAfter f.name.data rem_str).isSome then { f with rstate := f.rstate.ref_by_type }
        else f)
      rstate :=
        if cls.sfields.any (fun f => (remAfter f.name.data rem_str).isSome) then
          cls.rstate.ref_by_type
        else cls.rstate }

/-- ReachableClasses.cpp:181-201, keep_class_members over the scope. -/
def keep_class_members (scope : Scope) (keep_class_mems : List String) : Scope :=
  scope.map (keepClassMembersCls keep_class_mems)

/-- The remainder produced by the first configured rule that contains the
given class descriptor as a substring. -/
def firstRem (rules : List String) (name : Name) : Option (List Char) :=
  rules.findSome? (fun r => remAfter name.data r.data)

/-- How one static field changes under a selected member-keep remainder:
type_referenced is or-ed with occurrence of the field name inside the
remainder; everything else is untouched. -/
def memberKeepFieldRel (rem : List Char) (f f2 : DexField) : Prop :=
  f2.name = f.name ∧
  f2.rstate.type_referenced =
    (f.rstate.type_referenced || (remAfter f.name.data rem).isSome) ∧
  f2.rstate.string_referenced_from_code = f.rstate.string_referenced_from_code ∧
  f2.rstate.string_referenced_external = f.rstate.string_referenced_external ∧
  f2.rstate.seed_referenced = f.rstate.seed_referenced

/-- How one class changes under keep_class_members: untouched when no
rule contains its descriptor; otherwise only its static fields and its
own type_referenced fact (or-ed with existence of a matching field)
change, with no cascade to methods or instance fields. -/
def memberKeepClassRel (rules : List String) (c c2 : DexClass) : Prop :=
  (firstRem rules c.name = none → c2 = c) ∧
  ∀ rem, firstRem rules c.name = some rem →
    c2.name = c.name ∧ c2.superName = c.superName ∧
    c2.dmethods = c.dmethods ∧ c2.vmethods = c.vmethods ∧ c2.ifields = c.ifields ∧
    c2.rstate.type_referenced =
      (c.rstate.type_referenced ||
        c.sfields.any (fun f => (remAfter f.name.data rem).isSome)) ∧
    c2.rstate.string_referenced_from_code = c.rstate.string_referenced_from_code ∧
    c2.rstate.string_referenced_external = c.rstate.string_referenced_external ∧
    c2.rstate.seed_referenced = c.rstate.seed_referenced ∧
    List.Forall₂ (memberKeepFieldRel rem) c.sfields c2.sfields

theorem memberKeepFieldRel_of (rem : List Char) (f : DexField) :
    memberKeepFieldRel rem f
      (if (remAfter f.name.data rem).isSome then { f with rstate := f.rstate.ref_by_type }
        else f) := by
  unfold memberKeepFieldRel
  by_cases h : (remAfter f.name.data rem).isSome = true
  · rw [if_pos h]
    refine ⟨rfl, ?_, rfl, rfl, rfl⟩
    rw [h]
    exact (Bool.or_true _).symm
  · rw [if_neg h]
    refine ⟨rfl, ?_, rfl, rfl, rfl⟩
    rw [Bool.not_eq_true] at h
    rw [h]
    exact (Bool.or_false _).symm

theorem memberKeepClassRel_of (rules : List String) (c : DexClass) :
    memberKeepClassRel rules c (keepClassMembersCls rules c) := by
  constructor
  · intro h
    unfold keepClassMembersCls
    rw [show rules.findSome? (fun r => remAfter c.name.data r.data) = none from h]
  · intro rem hrem
    have hcls : keepClassMembersCls rules c =
        { c with
          sfields := c.sfields.map (fun f =>
            if (remAfter f.name.data rem).isSome then { f with rstate := f.rstate.ref_by_type }
            else f)
          rstate :=
            if c.sfields.any (fun f => (remAfter f.name.data rem).isSome) then
              c.rstate.ref_by_type
            else c.rstate } := by
      unfold keepClassMembersCls
      rw [show rules.findSome? (fun r => remAfter c.name.data r.data) = some rem from hrem]
    rw [hcls]
    refine ⟨rfl, rfl, rfl, rfl, rfl, ?_, ?_, ?_, ?_,
      forall2_self_map (memberKeepFieldRel rem) _
        (fun f => memberKeepFieldRel_of rem f) _⟩
    · by_cases hA : (c.sfields.any (fun f => (remAfter f.name.data rem).isSome)) = true
      · rw [if_pos hA, hA]
        exact (Bool.or_true _).symm
      · rw [if_neg hA]
        rw [Bool.not_eq_true] at hA
        rw [hA]
        exact (Bool.or_false _).symm
    · by_cases hA : (c.sfields.any (fun f => (remAfter f.name.data rem).isSome)) = true
      · rw [if_pos hA]; rfl
      · rw [if_neg hA]
    · by_cases hA : (c.sfields.any (fun f => (remAfter f.name.data rem).isSome)) = true
      · rw [if_pos hA]; rfl
      · rw [if_neg hA]
    · by_cases hA : (c.sfields.any (fun f => (remAfter f.name.data rem).isSome)) = true
      · rw [if_pos hA]; rfl
      · rw [if_neg hA]

/-- Claim C1 (amended): keep_class_members scans, for each class in scope
order independently, the configured rules in order; the first rule that
contains the class's full descriptor as a substring is selected (and no
further rule is consulted for that class); every static field whose name
occurs inside that rule's remainder is marked non-cascadingly, and the
class is marked non-cascadingly iff at least one of its static fields
matched; methods, instance fields and all other facts are unchanged. -/
theorem keep_class_members_characterization (scope : Scope) (rules : List String) :
    List.Forall₂ (memberKeepClassRel rules) scope (keep_class_members scope rules) :=
  forall2_self_map (memberKeepClassRel rules) _
    (fun c => memberKeepClassRel_of rules c) scope

def cexBarField : DexField := ⟨"myBar", RState.fresh⟩

def cexFoo1 : DexClass := ⟨"LFoo1;", none, [], [], [cexBarField], [], RState.fresh⟩

def cexFoo2 : DexClass := ⟨"LFoo2;", none, [], [], [⟨"otherBar", RState.fresh⟩], [], RState.fresh⟩

def cexFooScope : Scope := [cexFoo1, cexFoo2]

/-- Counterexample to claim C1 as stated: with classes LFoo1; and LFoo2;
both containing substring Foo, rule FooBar, and both declaring a static
field whose name contains Bar (the claim premises hold, witnessed by the
first two conjuncts), keep_class_members marks nothing at all — the code
searches for the class descriptor inside the rule, not for the rule's
class substring inside the descriptor, so in particular LFoo1; and its
matching field stay unmarked. -/
theorem keep_class_members_counterexample :
    (remAfter "Foo".data "LFoo1;".data).isSome = true ∧
    (remAfter "Bar".data "myBar".data).isSome = true ∧
    keep_class_members cexFooScope ["FooBar"] = cexFooScope ∧
    cexFoo1.rstate.type_referenced = false ∧
    cexBarField.rstate.type_referenced = false := by decide

/-- type_class_internal(dclass->get_super_class()): the superclass as a
defined class, or none when the super is null or outside the scope. -/
def resolveSuper (scope : Scope) (dclass : DexClass) : Option DexClass :=
  dclass.superName.bind (fun sup => type_class_internal scope sup)

/-- ReachableClasses.cpp:223-235, in_reflected_pkg: plain recursion on the
superclass chain — true as soon as the current class is in the set, false
at a null class, otherwise recurse on the superclass.  The C++ recursion
carries no fuel; here fuel counts recursion depth, none modelling a call
that has not returned within that depth. -/
def in_reflected_pkg (scope : Scope) (reflected_pkg_classes : List Name) :
    Nat → Option DexClass → Option Bool
  | 0, _ => none
  | _ + 1, none => some false
  | fuel + 1, some dclass =>
    if reflected_pkg_classes.contains dclass.name then some true
    else in_reflected_pkg scope reflected_pkg_classes fuel (resolveSuper scope dclass)

/-- n-fold superclass step. -/
def superIter (scope : Scope) : Nat → Option DexClass → Option DexClass
  | 0, c => c
  | n + 1, c => superIter scope n (c.bind (resolveSuper scope))

/-- The walk never returns, at any recursion depth. -/
def walk_diverges (scope : Scope) (pkgSet : List Name) (c : Option DexClass) : Prop :=
  ∀ fuel, in_reflected_pkg scope pkgSet fuel c = none

/-- The superclass chain reaches, within n steps, either an unresolved
class or a member of the set. -/
def ReachesEnd (scope : Scope) (pkgSet : List Name) (n : Nat) (c : Option DexClass) : Prop :=
  superIter scope n c = none ∨
    ∃ d, superIter scope n c = some d ∧ pkgSet.contains d.name = true

def cycA : DexClass := ⟨"LA;", some "LB;", [], [], [], [], RState.fresh⟩

def cycB : DexClass := ⟨"LB;", some "LA;", [], [], [], [], RState.fresh⟩

def cycScope : Scope := [cycA, cycB]

theorem irp_step_cycA (n : Nat) :
    in_reflected_pkg cycScope [] (n + 1) (some cycA) =
      in_reflected_pkg cycScope [] n (some cycB) := by
  have hres : resolveSuper cycScope cycA = some cycB := by decide
  show (if ([] : List Name).contains cycA.name then (some true : Option Bool)
      else in_reflected_pkg cycScope [] n (resolveSuper cycScope cycA)) =
    in_reflected_pkg cycScope [] n (some cycB)
  rw [hres]
  rfl

theorem irp_step_cycB (n : Nat) :
    in_reflected_pkg cycScope [] (n + 1) (some cycB) =
      in_reflected_pkg cycScope [] n (some cycA) := by
  have hres : resolveSuper cycScope cycB = some cycA := by decide
  show (if ([] : List Name).contains cycB.name then (some true : Option Bool)
      else in_reflected_pkg cycScope [] n (resolveSuper cycScope cycB)) =
    in_reflected_pkg cycScope [] n (some cycA)
  rw [hres]
  rfl

/-- Counterexample to claim C2: in_reflected_pkg is plain recursion with
no visited set and no depth bound; on the two-class superclass cycle
LA; / LB; with an empty reflected set the walk never returns at any
recursion depth. -/
theorem in_reflected_pkg_cycle_diverges : walk_diverges cycScope [] (some cycA) := by
  have key : ∀ n, in_reflected_pkg cycScope [] n (some cycA) = none ∧
      in_reflected_pkg cycScope [] n (some cycB) = none := by
    intro n
    induction n with
    | zero => exact ⟨rfl, rfl⟩
    | succ n ih => exact ⟨(irp_step_cycA n).trans ih.2, (irp_step_cycB n).trans ih.1⟩
  intro fuel
  exact (key fuel).1

/-- Claim C2 (amended): the walk terminates exactly on well-behaved
chains — whenever the superclass chain from the start reaches an
unresolved class or a member of the reflected set within n steps, the
recursion returns within depth n+1. -/
theorem in_reflected_pkg_terminates (scope : Scope) (pkgSet : List Name) :
    ∀ (n : Nat) (c : Option DexClass), ReachesEnd scope pkgSet n c →
      (in_reflected_pkg scope pkgSet (n + 1) c).isSome = true := by
  intro n
  induction n with
  | zero =>
    intro c h
    cases h with
    | inl h =>
      have hc : c = none := h
      subst hc
      rfl
    | inr h =>
      obtain ⟨d, hd, hmem⟩ := h
      have hc : c = some d := hd
      subst hc
      show (if pkgSet.contains d.name = true then (some true : Option Bool)
        else in_reflected_pkg scope pkgSet 0 (resolveSuper scope d)).isSome = true
      rw [if_pos hmem]
      rfl
  | succ n ih =>
    intro c h
    cases c with
    | none => rfl
    | some d =>
      by_cases hmem : pkgSet.contains d.name = true
      · show (if pkgSet.contains d.name = true then (some true : Option Bool)
          else in_reflected_pkg scope pkgSet (n + 1) (resolveSuper scope d)).isSome = true
        rw [if_pos hmem]
        rfl
      · show (if pkgSet.contains d.name = true then (some true : Option Bool)
          else in_reflected_pkg scope pkgSet (n + 1) (resolveSuper scope d)).isSome = true
        rw [if_neg hmem]
        apply ih
        cases h with
        | inl h => exact Or.inl h
        | inr h => exact Or.inr h

def termA : DexClass := ⟨"LT;", none, [], [], [], [], RState.fresh⟩

def termScope : Scope := [termA]

/-- Witness for the amended C2 theorem at a concrete one-class scope
whose chain resolves after one step. -/
theorem in_reflected_pkg_terminates_witness :
    (in_reflected_pkg termScope [] 2 (some termA)).isSome = true :=
  in_reflected_pkg_terminates termScope [] 1 (some termA) (Or.inl (by decide))

/-- keeprules::ClassType as consulted here: the rule targets a class, an
interface, or something else. -/
inductive ClassType
  | CLASS
  | INTERFACE
  | OTHER
deriving DecidableEq

/-- A parsed keep rule as consumed by the evaluator: a possibly null
class-name pattern plus the rule's class kind. -/
structure KeepRule where
  classname : Option String
  class_type : ClassType
deriving DecidableEq

def wildcardFree (s : String) : Bool := !(strContains s '*')

/-- ReachableClasses.cpp:338-350: collect the patterns the evaluator will
consult — rules with a non-null classname of kind CLASS or INTERFACE and
strlen greater than 2, translated dot-to-slash and prepended with the
class-type marker (note: no trailing descriptor terminator is appended). -/
def cls_patterns (proguard_rules : List KeepRule) : List String :=
  proguard_rules.filterMap (fun r =>
    match r.classname with
    | none => none
    | some cn =>
      if r.class_type = ClassType.CLASS ∨ r.class_type = ClassType.INTERFACE then
        if 2 < cn.length then some ("L" ++ translateDots cn) else none
      else none)

/-- Modelled from the spec: type_matches is declared in Predicate.h,
which is not under src.  Per §4.2 the matcher is length-aware and, for
the wildcard-free patterns in scope here, the match is exact equality of
the translated pattern and the candidate descriptor. -/
def type_matches (pat cname : String) (pat_len cls_len : Nat) : Bool :=
  pat_len == cls_len && pat == cname

/-- ReachableClasses.cpp:352-365: a class descriptor is matched iff some
collected pattern type_matches it (the per-class loop with break). -/
def evaluatorMatches (proguard_rules : List KeepRule) (cname : String) : Bool :=
  (cls_patterns proguard_rules).any (fun pat => type_matches pat cname pat.length cname.length)

/-- Stated from the claim words, for comparison with the evaluator:
translate the dotted pattern (package separator to descriptor separator)
and wrap it as a class-type descriptor L...; then compare for
descriptor equality. -/
def specClassPatternMatch (dotted cname : String) : Bool :=
  cname == "L" ++ translateDots dotted ++ ";"

def cexRule : KeepRule := ⟨some "com.Foo", ClassType.CLASS⟩

/-- Counterexample to claim C5 as stated: the wildcard-free consulted
pattern com.Foo (length 7 > 2) is descriptor-equal to Lcom/Foo; after
full translation and wrapping, yet the evaluator does not match it,
because the code prepends the class-type marker but never appends the
trailing descriptor terminator. -/
theorem keep_rule_pattern_counterexample :
    wildcardFree "com.Foo" = true ∧ 2 < "com.Foo".length ∧
    specClassPatternMatch "com.Foo" "Lcom/Foo;" = true ∧
    evaluatorMatches [cexRule] "Lcom/Foo;" = false := by decide

theorem cls_patterns_mem (rules : List KeepRule) (pat : String) :
    pat ∈ cls_patterns rules ↔
      ∃ r ∈ rules, ∃ cn, r.classname = some cn ∧
        (r.class_type = ClassType.CLASS ∨ r.class_type = ClassType.INTERFACE) ∧
        2 < cn.length ∧ pat = "L" ++ translateDots cn := by
  unfold cls_patterns
  rw [List.mem_filterMap]
  constructor
  · rintro ⟨r, hr, hfr⟩
    cases hcn : r.classname with
    | none =>
      rw [hcn] at hfr
      exact Option.noConfusion hfr
    | some cn =>
      rw [hcn] at hfr
      have hfr2 : (if r.class_type = ClassType.CLASS ∨ r.class_type = ClassType.INTERFACE then
          if 2 < cn.length then some ("L" ++ translateDots cn) else none
        else none) = some pat := hfr
      by_cases hct : r.class_type = ClassType.CLASS ∨ r.class_type = ClassType.INTERFACE
      · rw [if_pos hct] at hfr2
        by_cases hlen : 2 < cn.length
        · rw [if_pos hlen] at hfr2
          exact ⟨r, hr, cn, hcn, hct, hlen, (Option.some.inj hfr2).symm⟩
        · rw [if_neg hlen] at hfr2
          exact Option.noConfusion hfr2
      · rw [if_neg hct] at hfr2
        exact Option.noConfusion hfr2
  · rintro ⟨r, hr, cn, hcn, hct, hlen, rfl⟩
    refine ⟨r, hr, ?_⟩
    rw [hcn]
    show (if r.class_type = ClassType.CLASS ∨ r.class_type = ClassType.INTERFACE then
        if 2 < cn.length then some ("L" ++ translateDots cn) else none
      else none) = some ("L" ++ translateDots cn)
    rw [if_pos hct, if_pos hlen]

/-- Claim C5 (amended): the evaluator only consults patterns built from
CLASS or INTERFACE rules whose raw classname is longer than 2 characters
(so length-at-most-2 patterns are never consulted), and a wildcard-free
consulted pattern matches a candidate descriptor iff the candidate equals
the class-type marker prepended to the dot-to-slash translation of the
raw pattern — with no trailing descriptor terminator appended. -/
theorem keep_rule_pattern_characterization (rules : List KeepRule) (cdesc : String)
    (hwf : ∀ r ∈ rules, ∀ cn, r.classname = some cn → wildcardFree cn = true) :
    (∀ pat ∈ cls_patterns rules, ∃ cn, 2 < cn.length ∧ pat = "L" ++ translateDots cn) ∧
    (evaluatorMatches rules cdesc = true ↔
      ∃ r ∈ rules, ∃ cn, r.classname = some cn ∧
        (r.class_type = ClassType.CLASS ∨ r.class_type = ClassType.INTERFACE) ∧
        2 < cn.length ∧ cdesc = "L" ++ translateDots cn) := by
  constructor
  · intro pat hpat
    obtain ⟨r, _, cn, _, _, hlen, hpe⟩ := (cls_patterns_mem rules pat).mp hpat
    exact ⟨cn, hlen, hpe⟩
  · unfold evaluatorMatches
    rw [List.any_eq_true]
    constructor
    · rintro ⟨pat, hpat, hmatch⟩
      unfold type_matches at hmatch
      rw [Bool.and_eq_true] at hmatch
      have hpe : pat = cdesc := eq_of_beq hmatch.2
      obtain ⟨r, hr, cn, hcn, hct, hlen, hpat2⟩ := (cls_patterns_mem rules pat).mp hpat
      exact ⟨r, hr, cn, hcn, hct, hlen, hpe ▸ hpat2⟩
    · rintro ⟨r, hr, cn, hcn, hct, hlen, rfl⟩
      refine ⟨"L" ++ translateDots cn,
        (cls_patterns_mem rules _).mpr ⟨r, hr, cn, hcn, hct, hlen, rfl⟩, ?_⟩
      unfold type_matches
      rw [Bool.and_eq_true]
      exact ⟨beq_self_eq_true _, beq_self_eq_true _⟩

/-- Witness for the amended C5 theorem: the evaluator does match when the
candidate carries no trailing terminator. -/
theorem keep_rule_pattern_witness :
    evaluatorMatches [cexRule] "Lcom/Foo" = true :=
  ((keep_rule_pattern_characterization [cexRule] "Lcom/Foo" (by
      intro r hr cn hcn
      rw [List.mem_singleton] at hr
      subst hr
      have h2 : "com.Foo" = cn := Option.some.inj hcn
      rw [← h2]
      decide)).2).mpr
    ⟨cexRule, List.mem_singleton.mpr rfl, "com.Foo", rfl, Or.inl rfl, by decide, by decide⟩

/-- Modelled from the spec: the starts_with utility called at
ReachableClasses.cpp:309 is declared outside src; per §4.4 item 5 the
check is that the descriptor string begins with the configured package
string. -/
def starts_with (s p : String) : Bool := p.data.isPrefixOf s.data

/-- ReachableClasses.cpp:305-314: the reflected-package seed set —
classes of the scope whose descriptor starts with one of the configured
keep_packages strings, compared verbatim with no translation. -/
def reflected_package_classes (scope : Scope) (reflected_package_names : List String) :
    List DexClass :=
  scope.filter (fun clazz => reflected_package_names.any (fun pkg => starts_with clazz.name pkg))

/-- Claim C10: the keep_packages prefixes are compared verbatim against
internal descriptors, which begin with the class-type marker; hence
package strings supplied in external dotted form (nonempty, not starting
with the marker) seed no class into the reflected set. -/
theorem dotted_package_seeds_nothing (scope : Scope) (pkgs : List String)
    (hcls : ∀ c ∈ scope, c.name.data.head? = some 'L')
    (hpkg : ∀ p ∈ pkgs, p.data ≠ [] ∧ p.data.head? ≠ some 'L') :
    reflected_package_classes scope pkgs = [] := by
  unfold reflected_package_classes
  rw [List.filter_eq_nil_iff]
  intro c hc hany
  rw [List.any_eq_true] at hany
  obtain ⟨p, hp, hstart⟩ := hany
  have hpre : p.data <+: c.name.data := by
    unfold starts_with at hstart
    exact List.isPrefixOf_iff_prefix.mp hstart
  obtain ⟨hne, hhead⟩ := hpkg p hp
  obtain ⟨t, ht⟩ := hpre
  cases hq : p.data with
  | nil => exact hne hq
  | cons x xs =>
    rw [hq] at ht
    have h1 : c.name.data.head? = some x := by rw [← ht]; rfl
    have h2 := hcls c hc
    rw [h1] at h2
    have hx : x = 'L' := Option.some.inj h2
    apply hhead
    rw [hq, hx]
    rfl

def pkgDemoCls : DexClass := ⟨"Lcom/x/C;", none, [], [], [], [], RState.fresh⟩

/-- Witness for C10 at a concrete scope and dotted prefix. -/
theorem dotted_package_seeds_nothing_witness :
    reflected_package_classes [pkgDemoCls] ["com.x"] = [] :=
  dotted_package_seeds_nothing [pkgDemoCls] ["com.x"] (by decide) (by decide)

/-- A two-class demonstration scope used by the witnesses. -/
def demoA : DexClass :=
  ⟨"LA;", none, [⟨"dm", RState.fresh⟩], [⟨"vm", RState.fresh⟩],
    [⟨"sf", RState.fresh⟩], [⟨"if0", RState.fresh⟩], RState.fresh⟩

def demoB : DexClass := ⟨"LB;", none, [], [], [], [], RState.fresh⟩

def demoScope : Scope := [demoA, demoB]

/-- Witness for C6 at a concrete scope. -/
theorem mark_direct_cascade_witness :
    (mark_direct demoScope "LA;")[1]? = demoScope[1]? :=
  (mark_direct_cascade_and_frame demoScope "LA;" 0 (by decide)).1 1 (by decide)

/-- Witness for C7 at a concrete scope. -/
theorem mark_by_seed_exclusive_witness :
    (mark_reachable_by_seed demoScope "LB;")[0]? = demoScope[0]? :=
  (mark_by_seed_exclusive demoScope "LB;" 1 (by decide)).1 0 (by decide)

end Redex
